import Mathlib

/-!
Shallow embedding of the `profiling` circular buffer and its earlier
single-queue revision, together with theorems checking the repository's
specification against the code.

Sources:
* `Profiling` embeds the double-buffered revision (`circularBufferQueue`,
  `NewCircularBufferQueue`, `CircularBuffer`, `NewCircularBuffer`, `Push`,
  `switchQueues`, `Drain`).
* `ProfilingOld` embeds the earlier single-queue revision
  (`profiling/buffer.go`: `CircularBuffer`, `NewCircularBuffer`, `Push`,
  `Drain`).

Modelling conventions:
* `uint32` counters are `Nat` with every increment reduced `% U32`;
  the Go expression `size - 1` on `uint32` is `(size + (U32 - 1)) % U32`.
* A slot (`unsafe.Pointer` resp. `atomic.Value`) is an `Option α`:
  `none` is the initial nil slot, `some x` a slot holding payload `x`.
* A drained element is the raw slot content (`Option α`), so a drain that
  copied the payload pushed as `x` yields `some x`.
* The busy-wait `drainWait` returns only when `acquired == written`;
  a state in which it would spin forever is modelled by `Drain` returning
  `none`.
-/

/-- `2^32`, the modulus of Go's `uint32` arithmetic. -/
def U32 : Nat := 4294967296

namespace Profiling

/-- One ring queue of the double-buffered revision: the fields of Go's
`circularBufferQueue` (slot array, size, mask, and the three `uint32`
counters `acquired`, `written`, `drainingPostCheck`). -/
structure circularBufferQueue (α : Type) where
  arr : List (Option α)
  size : Nat
  mask : Nat
  acquired : Nat
  written : Nat
  drainingPostCheck : Nat
deriving DecidableEq

/-- `NewCircularBufferQueue`: a fresh queue of `size` nil slots with
`mask = size - 1` (uint32 subtraction) and zeroed counters. -/
def NewCircularBufferQueue (size : Nat) : circularBufferQueue α :=
  { arr := List.replicate size none
    size := size
    mask := (size + (U32 - 1)) % U32
    acquired := 0
    written := 0
    drainingPostCheck := 0 }

/-- The `atomic.CompareAndSwapPointer` on slot `i`: if the slot still holds
`expected`, store `desired`; otherwise leave the array unchanged. Returns the
updated array and whether the swap happened. -/
def casSlot [DecidableEq α] (arr : List (Option α)) (i : Nat) (expected desired : Option α) :
    List (Option α) × Bool :=
  if arr.getD i none = expected then (arr.set i desired, true) else (arr, false)

/-- The body of `Push` acting on the selected queue. `old` is the slot value
the `atomic.LoadPointer` observed; in a single-threaded run it is the current
slot content, under concurrency an interfering push may have changed the slot
before the CAS, making the CAS fail. Follows the source line by line:
fetch-add `acquired`; if `drainingPostCheck > 0` abandon (the increment is not
rolled back); otherwise compute `index = acquired & mask`, do one CAS on slot
`index`, and fetch-add `written`. The returned `Nat` counts the CAS
attempts executed. -/
def circularBufferQueue.pushOnQueue [DecidableEq α] (q : circularBufferQueue α)
    (old : Option α) (x : α) : circularBufferQueue α × Nat :=
  let acquired := q.acquired
  let q1 : circularBufferQueue α := { q with acquired := (q.acquired + 1) % U32 }
  if q1.drainingPostCheck > 0 then
    (q1, 0)
  else
    let index := Nat.land acquired q1.mask
    let cas := casSlot q1.arr index old (some x)
    ({ q1 with arr := cas.1, written := (q1.written + 1) % U32 }, 1)

/-- A single-threaded push on a queue: the value observed by the atomic load
is the current slot content, so the CAS succeeds. -/
def circularBufferQueue.pushSeq [DecidableEq α] (q : circularBufferQueue α) (x : α) :
    circularBufferQueue α :=
  (q.pushOnQueue (q.arr.getD (Nat.land q.acquired q.mask) none) x).1

/-- The double-buffered `CircularBuffer`: two queues `qs[0]`, `qs[1]` and the
atomic selector `qc`. -/
structure CircularBuffer (α : Type) where
  qs0 : circularBufferQueue α
  qs1 : circularBufferQueue α
  qc : Nat
deriving DecidableEq

/-- The buffer a successful `NewCircularBuffer` allocates: two fresh queues
of the given size, `qc = 0`. -/
def mkCircularBuffer (size : Nat) : CircularBuffer α :=
  { qs0 := NewCircularBufferQueue size
    qs1 := NewCircularBufferQueue size
    qc := 0 }

/-- `NewCircularBuffer`: returns nil (`none`) when `size & (size - 1) != 0`
(with `size - 1` computed in `uint32`), otherwise the two-queue buffer. -/
def NewCircularBuffer (size : Nat) : Option (CircularBuffer α) :=
  if Nat.land size ((size + (U32 - 1)) % U32) ≠ 0 then none
  else some (mkCircularBuffer size)

/-- `Push`: load `qc`, push on the selected queue. -/
def CircularBuffer.Push [DecidableEq α] (cb : CircularBuffer α) (x : α) : CircularBuffer α :=
  if cb.qc = 0 then { cb with qs0 := cb.qs0.pushSeq x }
  else { cb with qs1 := cb.qs1.pushSeq x }

/-- The slot indices `Drain` reads, in order: `0 .. written-1` when
`written < size`, otherwise `cur .. size-1` followed by `0 .. cur-1` with
`cur = written & mask`. -/
def circularBufferQueue.harvestReads (q : circularBufferQueue α) : List Nat :=
  if q.written < q.size then
    List.range q.written
  else
    let cur := Nat.land q.written q.mask
    (List.range (q.size - cur)).map (fun j => cur + j) ++ List.range cur

/-- The payload copy `Drain` performs after setting the barrier: the slot
contents at `harvestReads`, in order. -/
def circularBufferQueue.harvest (q : circularBufferQueue α) : List (Option α) :=
  q.harvestReads.map (fun i => q.arr.getD i none)

/-- The final lines of `Drain` on the drained queue: clear
`drainingPostCheck`, zero `acquired` and `written`. The slot array is left
as-is. -/
def circularBufferQueue.resetQueue (q : circularBufferQueue α) :
    circularBufferQueue α :=
  { q with drainingPostCheck := 0, acquired := 0, written := 0 }

/-- The body of `Drain` acting on the queue returned by `switchQueues`:
`drainWait` (spins until `acquired == written`; a state where that never
holds is `none`), store `drainingPostCheck = 1`, copy the retained slots,
clear the barrier and reset the counters. -/
def circularBufferQueue.drainQueue (q : circularBufferQueue α) :
    Option (List (Option α) × circularBufferQueue α) :=
  if q.acquired = q.written then
    let q1 : circularBufferQueue α := { q with drainingPostCheck := 1 }
    some (q1.harvest, q1.resetQueue)
  else
    none

/-- `Drain`: `switchQueues` (CAS `qc` 0→1, else CAS 1→0) selects the
previously active queue and flips the selector; then the drain body runs on
that queue. -/
def CircularBuffer.Drain (cb : CircularBuffer α) :
    Option (List (Option α) × CircularBuffer α) :=
  if cb.qc = 0 then
    (cb.qs0.drainQueue).map (fun p => (p.1, { cb with qc := 1, qs0 := p.2 }))
  else
    (cb.qs1.drainQueue).map
      (fun p => (p.1, { cb with qc := if cb.qc = 1 then 0 else cb.qc, qs1 := p.2 }))

/-- `n` single-threaded pushes of `f 0, f 1, …, f (n-1)` on a queue. -/
def pushRun [DecidableEq α] (q : circularBufferQueue α) (f : Nat → α) : Nat → circularBufferQueue α
  | 0 => q
  | n + 1 => (pushRun q f n).pushSeq (f n)

/-- The primitive steps of `Drain` in program order: `switchQueues`, the
`drainWait` loop's successful observation of `acquired == written`, the
store of `drainingPostCheck = 1`, the slot reads of the copy loops, the
store of `drainingPostCheck = 0`, and the counter reset. -/
inductive DrainEvent where
  | switchQ
  | observeQuiescence
  | setBarrier
  | readSlot (i : Nat)
  | clearBarrier
  | resetCounters
deriving DecidableEq

/-- The event trace of one `Drain` on the selected queue, in source order
(`Drain` lines: switch, `drainWait`, barrier store, copy loops, barrier
clear, counter reset). -/
def circularBufferQueue.drainEvents (q : circularBufferQueue α) : List DrainEvent :=
  DrainEvent.switchQ :: DrainEvent.observeQuiescence :: DrainEvent.setBarrier ::
    (q.harvestReads.map DrainEvent.readSlot ++
      [DrainEvent.clearBarrier, DrainEvent.resetCounters])

/-- The slot content at index `j` after `n` single-threaded pushes of
`f 0 … f (n-1)` into a fresh queue of capacity `c`: the last pushed value
whose index maps to `j`, or `none` if no push reached slot `j` yet. -/
def slotSpec (c : Nat) (f : Nat → α) (n j : Nat) : Option α :=
  if j < n % c then some (f (n - n % c + j))
  else if c ≤ n then some (f (n - n % c - c + j))
  else none

/-- `n` single-threaded pushes of `f 0, f 1, …, f (n-1)` on the buffer. -/
def CBpushN [DecidableEq α] (cb : CircularBuffer α) (f : Nat → α) : Nat → CircularBuffer α
  | 0 => cb
  | n + 1 => (CBpushN cb f n).Push (f n)

end Profiling

namespace ProfilingOld

/-- The earlier single-queue revision (`profiling/buffer.go`): one slot
array of `atomic.Value`s, one `written` counter, `size` and `mask`. -/
structure CircularBuffer (α : Type) where
  size : Nat
  mask : Nat
  written : Nat
  arr : List (Option α)
deriving DecidableEq

/-- The buffer a successful old-revision `NewCircularBuffer` allocates. -/
def mkCircularBuffer (size : Nat) : CircularBuffer α :=
  { size := size
    mask := (size + (U32 - 1)) % U32
    written := 0
    arr := List.replicate size none }

/-- Old-revision `NewCircularBuffer`: the same `size & (size - 1) != 0`
check. -/
def NewCircularBuffer (size : Nat) : Option (CircularBuffer α) :=
  if Nat.land size ((size + (U32 - 1)) % U32) ≠ 0 then none
  else some (mkCircularBuffer size)

/-- Old-revision `Push`: `cur = (fetch-add written) & mask`, then a plain
store into slot `cur`. -/
def CircularBuffer.Push (cb : CircularBuffer α) (x : α) : CircularBuffer α :=
  let cur := Nat.land cb.written cb.mask
  { cb with written := (cb.written + 1) % U32, arr := cb.arr.set cur (some x) }

/-- Old-revision `Drain`'s copy loops: identical retention ordering to the
new revision. -/
def CircularBuffer.harvest (cb : CircularBuffer α) : List (Option α) :=
  if cb.written < cb.size then
    (List.range cb.written).map (fun i => cb.arr.getD i none)
  else
    let cur := Nat.land cb.written cb.mask
    ((List.range (cb.size - cur)).map (fun j => cb.arr.getD (cur + j) none)) ++
      (List.range cur).map (fun i => cb.arr.getD i none)

/-- Old-revision `Drain`: copy the retained slots, zero `written`. -/
def CircularBuffer.Drain (cb : CircularBuffer α) :
    List (Option α) × CircularBuffer α :=
  (cb.harvest, { cb with written := 0 })

end ProfilingOld

/-- A single-threaded workload step: one push or one drain. -/
inductive Op (α : Type) where
  | push (x : α)
  | drain

namespace Profiling

/-- Run a single-threaded workload on the double-buffered revision,
returning the final state. A drain whose `drainWait` would never return has
no successor state. -/
def applyOps [DecidableEq α] (cb : CircularBuffer α) : List (Op α) → CircularBuffer α
  | [] => cb
  | Op.push x :: ops => applyOps (cb.Push x) ops
  | Op.drain :: ops =>
    match cb.Drain with
    | some p => applyOps p.2 ops
    | none => cb

/-- Run a single-threaded workload on the double-buffered revision,
collecting the sequence returned by each drain. -/
def runNew [DecidableEq α] (cb : CircularBuffer α) : List (Op α) → List (List (Option α))
  | [] => []
  | Op.push x :: ops => runNew (cb.Push x) ops
  | Op.drain :: ops =>
    match cb.Drain with
    | some p => p.1 :: runNew p.2 ops
    | none => []

end Profiling

namespace ProfilingOld

/-- Run a single-threaded workload on the single-queue revision, collecting
the sequence returned by each drain. -/
def runOld (cb : CircularBuffer α) : List (Op α) → List (List (Option α))
  | [] => []
  | Op.push x :: ops => runOld (cb.Push x) ops
  | Op.drain :: ops => (cb.Drain).1 :: runOld (cb.Drain).2 ops

end ProfilingOld

/-- A queue observed with the drain barrier set: the state a racing push
sees between a drainer's barrier store and barrier clear. -/
def qBarrier : Profiling.circularBufferQueue Nat :=
  { Profiling.NewCircularBufferQueue 2 with drainingPostCheck := 1 }

/-- A fresh capacity-1 queue holding one pushed value. -/
def qOnePush : Profiling.circularBufferQueue Nat :=
  (Profiling.NewCircularBufferQueue 1).pushSeq 5

/-- A queue with one reservation outstanding (`acquired ≠ written`): the
state in which `drainWait` spins. -/
def qInFlight : Profiling.circularBufferQueue Nat :=
  { Profiling.NewCircularBufferQueue 1 with acquired := 1 }

/-- Field shape of a queue of a capacity-`c` buffer: size `c`, mask `c-1`,
`c` slots, barrier clear. -/
def QueueShape (c : Nat) (q : Profiling.circularBufferQueue α) : Prop :=
  q.size = c ∧ q.mask = c - 1 ∧ q.arr.length = c ∧ q.drainingPostCheck = 0

/-- Simulation between the active/inactive queue pair of the double-buffered
revision and the single queue of the old revision: the inactive queue is
quiescent with zeroed counters; the active queue's counters mirror the old
`written` counter (`g` pushes since the active queue's last reset, counters
reduced mod 2^32), and the two slot arrays agree on every slot the current
generation has written (`j < g` and `j < c`). -/
def ActiveSim (c : Nat) (qa qi : Profiling.circularBufferQueue α)
    (old : ProfilingOld.CircularBuffer α) : Prop :=
  QueueShape c qa ∧ QueueShape c qi ∧
  qi.acquired = 0 ∧ qi.written = 0 ∧
  qa.acquired = qa.written ∧
  ∃ g : Nat, qa.written = g % U32 ∧ old.written = g % U32 ∧
    ∀ j, j < g → j < c → qa.arr.getD j none = old.arr.getD j none

/-- Simulation invariant between a double-buffered buffer state and an
old-revision state of the same capacity `c`. -/
def SimInv (c : Nat) (cb : Profiling.CircularBuffer α)
    (old : ProfilingOld.CircularBuffer α) : Prop :=
  old.size = c ∧ old.mask = c - 1 ∧ old.arr.length = c ∧
  ((cb.qc = 0 ∧ ActiveSim c cb.qs0 cb.qs1 old) ∨
   (cb.qc = 1 ∧ ActiveSim c cb.qs1 cb.qs0 old))

section HelperLemmas

variable {β : Type}

theorem getD_set_self : ∀ (l : List β) (i : Nat) (a d : β), i < l.length →
    (l.set i a).getD i d = a
  | [], _, _, _, h => absurd h (by simp)
  | _ :: _, 0, _, _, _ => rfl
  | _ :: l, i + 1, a, d, h => getD_set_self l i a d (by simpa using h)

theorem getD_set_ne : ∀ (l : List β) (i j : Nat) (a d : β), i ≠ j →
    (l.set i a).getD j d = l.getD j d
  | [], _, _, _, _, _ => rfl
  | _ :: _, 0, 0, _, _, h => absurd rfl h
  | _ :: _, 0, _ + 1, _, _, _ => rfl
  | _ :: _, _ + 1, 0, _, _, _ => rfl
  | _ :: l, i + 1, j + 1, a, d, h => getD_set_ne l i j a d (fun hij => h (by omega))

theorem getD_replicate : ∀ (c j : Nat) (d : β), (List.replicate c d).getD j d = d
  | 0, _, _ => by cases ‹Nat› <;> rfl
  | c + 1, 0, _ => rfl
  | c + 1, j + 1, d => getD_replicate c j d

end HelperLemmas

namespace Profiling

/-- **C2.** The constructor's capacity check `size & (size - 1) != 0` does
NOT reject capacity `0` (in `uint32`, `0 & (0 - 1) = 0`): both revisions
return a non-nil buffer for capacity `0`, contradicting the claim that the
constructor fails for `0`. It does fail for `3`, `5`, `1000` and succeed
for every `2^k`, `k ≤ 20`, as claimed. -/
theorem newCircularBuffer_accepts_capacity_zero :
    (Profiling.NewCircularBuffer (α := Nat) 0).isSome = true ∧
    (ProfilingOld.NewCircularBuffer (α := Nat) 0).isSome = true ∧
    Profiling.NewCircularBuffer (α := Nat) 3 = none ∧
    Profiling.NewCircularBuffer (α := Nat) 5 = none ∧
    Profiling.NewCircularBuffer (α := Nat) 1000 = none ∧
    ((List.range 21).all fun k =>
      (Profiling.NewCircularBuffer (α := Nat) (2 ^ k)).isSome) = true := by
  decide

/-- **C3.** A push that observes `drainingPostCheck ≠ 0` after its
fetch-add changes nothing but the `acquired` counter: no slot is modified,
`written` is unchanged, and the increment is left in place; the counter
reset at the end of a drain of that queue zeroes it wholesale. -/
theorem abandoned_push_only_increments_acquired [DecidableEq α]
    (q : circularBufferQueue α) (x : α) (h : q.drainingPostCheck ≠ 0) :
    q.pushSeq x = { q with acquired := (q.acquired + 1) % U32 } ∧
    (q.pushSeq x).arr = q.arr ∧
    (q.pushSeq x).written = q.written ∧
    ((q.pushSeq x).resetQueue).acquired = 0 ∧
    ((q.pushSeq x).resetQueue).written = 0 := by
  have hpos : q.drainingPostCheck > 0 := Nat.pos_of_ne_zero h
  refine ⟨?_, ?_, ?_, ?_, ?_⟩ <;>
    simp [circularBufferQueue.pushSeq, circularBufferQueue.pushOnQueue,
      circularBufferQueue.resetQueue, hpos]

theorem abandoned_push_only_increments_acquired_witness :
    qBarrier.pushSeq 7 = { qBarrier with acquired := (qBarrier.acquired + 1) % U32 } ∧
    (qBarrier.pushSeq 7).arr = qBarrier.arr ∧
    (qBarrier.pushSeq 7).written = qBarrier.written ∧
    ((qBarrier.pushSeq 7).resetQueue).acquired = 0 ∧
    ((qBarrier.pushSeq 7).resetQueue).written = 0 :=
  abandoned_push_only_increments_acquired qBarrier 7 (by decide)

/-- **C4.** A push that passes the post-check (`drainingPostCheck = 0`)
performs exactly one CAS attempt on its slot — whatever value the preceding
load observed, so whether or not the CAS succeeds — and then increments
`written` by exactly one; there is no retry loop. -/
theorem push_one_cas_then_written [DecidableEq α]
    (q : circularBufferQueue α) (old : Option α) (x : α)
    (h : q.drainingPostCheck = 0) :
    (q.pushOnQueue old x).2 = 1 ∧
    (q.pushOnQueue old x).1.written = (q.written + 1) % U32 := by
  constructor <;> simp [circularBufferQueue.pushOnQueue, h]

theorem push_one_cas_then_written_witness :
    ((NewCircularBufferQueue 2 : circularBufferQueue Nat).pushOnQueue (some 9) 7).2 = 1 ∧
    ((NewCircularBufferQueue 2 : circularBufferQueue Nat).pushOnQueue (some 9) 7).1.written =
      ((NewCircularBufferQueue 2 : circularBufferQueue Nat).written + 1) % U32 :=
  push_one_cas_then_written (NewCircularBufferQueue 2) (some 9) 7 rfl

/-- **C5.** In the drain's event trace the quiescence observation
(`acquired == written`, the exit of `drainWait`) is at position 1, the
barrier store at position 2, and every slot read strictly later; moreover a
drain on a queue whose `acquired` never equals `written` produces nothing
(`drainWait` never returns). So the barrier is stored and the first slot is
read only after quiescence was observed. -/
theorem drain_reads_only_after_quiescence (q : circularBufferQueue α) :
    q.drainEvents.get? 1 = some DrainEvent.observeQuiescence ∧
    q.drainEvents.get? 2 = some DrainEvent.setBarrier ∧
    (∀ i j, q.drainEvents.get? i = some (DrainEvent.readSlot j) → 2 < i) ∧
    (q.acquired ≠ q.written → q.drainQueue = none) := by
  refine ⟨rfl, rfl, ?_, ?_⟩
  · intro i j h
    match i with
    | 0 => simp [circularBufferQueue.drainEvents] at h
    | 1 => simp [circularBufferQueue.drainEvents] at h
    | 2 => simp [circularBufferQueue.drainEvents] at h
    | i + 3 => omega
  · intro hne
    simp [circularBufferQueue.drainQueue, hne]

theorem drain_reads_only_after_quiescence_witness :
    2 < 3 ∧ qInFlight.drainQueue = none :=
  ⟨(drain_reads_only_after_quiescence qOnePush).2.2.1 3 0 (by decide),
   (drain_reads_only_after_quiescence qInFlight).2.2.2 (by decide)⟩

end Profiling

namespace Profiling

theorem mask_sub_one (c : Nat) (h1 : 0 < c) (h2 : c ≤ U32) :
    (c + (U32 - 1)) % U32 = c - 1 := by
  simp only [U32] at *
  omega

theorem succ_mod_U32 (n : Nat) : (n % U32 + 1) % U32 = (n + 1) % U32 := by
  simp only [U32]
  omega

theorem land_mask_mod (k x : Nat) : Nat.land x (2 ^ k - 1) = x % 2 ^ k := by
  show x &&& 2 ^ k - 1 = x % 2 ^ k
  exact Nat.and_pow_two_sub_one_eq_mod x k

theorem mod_U32_mod_pow (k x : Nat) (hk : k ≤ 32) : x % U32 % 2 ^ k = x % 2 ^ k := by
  have h2 : (2:Nat) ^ k ∣ U32 := by
    have hU : U32 = 2 ^ 32 := by norm_num [U32]
    rw [hU]
    exact Nat.pow_dvd_pow 2 hk
  exact Nat.mod_mod_of_dvd x h2

theorem slotSpec_succ_self (f : Nat → α) (c n : Nat) (hc : 0 < c) :
    slotSpec c f (n + 1) (n % c) = some (f n) := by
  have hr : n % c < c := Nat.mod_lt n hc
  have hle : n % c ≤ n := Nat.mod_le n c
  have h1 : (n + 1) % c = (n % c + 1) % c := by
    conv_lhs => rw [show n + 1 = (n % c + 1) + c * (n / c) by
      have := Nat.div_add_mod n c
      omega]
    exact Nat.add_mul_mod_self_left (n % c + 1) c (n / c)
  rcases Nat.lt_or_ge (n % c + 1) c with hlt | hge
  · have h2 : (n + 1) % c = n % c + 1 := by rw [h1]; exact Nat.mod_eq_of_lt hlt
    simp only [slotSpec, h2]
    split_ifs <;>
      first
        | exact congrArg (fun t => some (f t)) (by omega)
        | (exfalso; omega)
  · have hceq : n % c + 1 = c := by omega
    have h2 : (n + 1) % c = 0 := by rw [h1, hceq, Nat.mod_self]
    simp only [slotSpec, h2]
    split_ifs <;>
      first
        | exact congrArg (fun t => some (f t)) (by omega)
        | (exfalso; omega)

theorem slotSpec_succ_ne (f : Nat → α) (c n j : Nat) (hc : 0 < c)
    (hj : j < c) (hne : j ≠ n % c) :
    slotSpec c f (n + 1) j = slotSpec c f n j := by
  have hr : n % c < c := Nat.mod_lt n hc
  have hle : n % c ≤ n := Nat.mod_le n c
  have h1 : (n + 1) % c = (n % c + 1) % c := by
    conv_lhs => rw [show n + 1 = (n % c + 1) + c * (n / c) by
      have := Nat.div_add_mod n c
      omega]
    exact Nat.add_mul_mod_self_left (n % c + 1) c (n / c)
  rcases Nat.lt_or_ge (n % c + 1) c with hlt | hge
  · have h2 : (n + 1) % c = n % c + 1 := by rw [h1]; exact Nat.mod_eq_of_lt hlt
    simp only [slotSpec, h2]
    rcases Nat.lt_or_ge n c with hnc | hnc
    · have hmod : n % c = n := Nat.mod_eq_of_lt hnc
      split_ifs <;>
        first
          | rfl
          | exact congrArg (fun t => some (f t)) (by omega)
          | (exfalso; omega)
    · split_ifs <;>
        first
          | rfl
          | exact congrArg (fun t => some (f t)) (by omega)
          | (exfalso; omega)
  · have hceq : n % c + 1 = c := by omega
    have h2 : (n + 1) % c = 0 := by rw [h1, hceq, Nat.mod_self]
    simp only [slotSpec, h2]
    split_ifs <;>
      first
        | rfl
        | exact congrArg (fun t => some (f t)) (by omega)
        | (exfalso; omega)

theorem pushRun_state [DecidableEq α] (c k : Nat) (hc : c = 2 ^ k) (hk : k ≤ 32)
    (f : Nat → α) (n : Nat) :
    (pushRun (NewCircularBufferQueue c) f n).size = c ∧
    (pushRun (NewCircularBufferQueue c) f n).mask = c - 1 ∧
    (pushRun (NewCircularBufferQueue c) f n).drainingPostCheck = 0 ∧
    (pushRun (NewCircularBufferQueue c) f n).acquired = n % U32 ∧
    (pushRun (NewCircularBufferQueue c) f n).written = n % U32 ∧
    (pushRun (NewCircularBufferQueue c) f n).arr.length = c ∧
    (∀ j, j < c → (pushRun (NewCircularBufferQueue c) f n).arr.getD j none =
      slotSpec c f n j) := by
  have hcpos : 0 < c := by
    rw [hc]
    exact Nat.pos_pow_of_pos k (by norm_num)
  have hcle : c ≤ U32 := by
    rw [hc]
    calc (2:Nat) ^ k ≤ 2 ^ 32 := Nat.pow_le_pow_right (by norm_num) hk
    _ = U32 := by norm_num [U32]
  induction n with
  | zero =>
    refine ⟨rfl, mask_sub_one c hcpos hcle, rfl, rfl, rfl, by simp [pushRun, NewCircularBufferQueue], ?_⟩
    intro j hj
    simp only [pushRun, NewCircularBufferQueue]
    rw [getD_replicate]
    simp only [slotSpec, Nat.zero_mod]
    rw [if_neg (by omega), if_neg (by omega)]
  | succ n ih =>
    obtain ⟨hsz, hm, hdpc, hacq, hw, hlen, hslots⟩ := ih
    have hidx : Nat.land (pushRun (NewCircularBufferQueue c) f n).acquired
        (pushRun (NewCircularBufferQueue c) f n).mask = n % c := by
      rw [hacq, hm, hc, land_mask_mod]
      exact mod_U32_mod_pow k n hk
    have hstep : pushRun (NewCircularBufferQueue c) f (n + 1) =
        { pushRun (NewCircularBufferQueue c) f n with
            acquired := ((pushRun (NewCircularBufferQueue c) f n).acquired + 1) % U32,
            written := ((pushRun (NewCircularBufferQueue c) f n).written + 1) % U32,
            arr := (pushRun (NewCircularBufferQueue c) f n).arr.set (n % c)
              (some (f n)) } := by
      show (pushRun (NewCircularBufferQueue c) f n).pushSeq (f n) = _
      simp [circularBufferQueue.pushSeq, circularBufferQueue.pushOnQueue, casSlot,
        hdpc, hidx]
    refine ⟨by simp [hstep, hsz], by simp [hstep, hm], by simp [hstep, hdpc], ?_, ?_, ?_, ?_⟩
    · simp only [hstep, hacq]
      exact succ_mod_U32 n
    · simp only [hstep, hw]
      exact succ_mod_U32 n
    · simp [hstep, hlen]
    · intro j hj
      simp only [hstep]
      rcases eq_or_ne j (n % c) with hje | hje
      · subst hje
        rw [getD_set_self _ _ _ _ (by rw [hlen]; exact Nat.mod_lt n hcpos)]
        exact (slotSpec_succ_self f c n hcpos).symm
      · rw [getD_set_ne _ _ _ _ _ (Ne.symm hje)]
        rw [hslots j hj]
        exact (slotSpec_succ_ne f c n j hcpos hj hje).symm

end Profiling

namespace Profiling

theorem harvest_eval (q : circularBufferQueue α) (c n : Nat) (f : Nat → α)
    (hck : ∃ k, k ≤ 32 ∧ c = 2 ^ k)
    (hsz : q.size = c) (hm : q.mask = c - 1) (hw : q.written = n)
    (hslots : ∀ j, j < c → q.arr.getD j none = slotSpec c f n j) :
    q.harvest = (List.range (min n c)).map fun t => some (f (n - min n c + t)) := by
  obtain ⟨k, hk, hc⟩ := hck
  have hcpos : 0 < c := by
    rw [hc]
    exact Nat.pos_pow_of_pos k (by norm_num)
  have hcur : Nat.land n (c - 1) = n % c := by
    rw [hc]
    exact land_mask_mod k n
  simp only [circularBufferQueue.harvest, circularBufferQueue.harvestReads, hw, hsz, hm]
  rcases Nat.lt_or_ge n c with hlt | hge
  · rw [if_pos hlt, Nat.min_eq_left (Nat.le_of_lt hlt)]
    have hmod : n % c = n := Nat.mod_eq_of_lt hlt
    apply List.map_congr_left
    intro i hi
    rw [List.mem_range] at hi
    rw [hslots i (Nat.lt_trans hi hlt), slotSpec, if_pos (by omega)]
    exact congrArg (fun t => some (f t)) (by omega)
  · have hr : n % c < c := Nat.mod_lt n hcpos
    have hsub : n % c = (n - c) % c := by
      conv_lhs => rw [show n = (n - c) + c by omega]
      rw [Nat.add_mod_right]
    have hcr : c + n % c ≤ n := by
      have h3 := Nat.mod_le (n - c) c
      omega
    rw [if_neg (Nat.not_lt.mpr hge), hcur, Nat.min_eq_right hge]
    rw [List.map_append, List.map_map]
    have hrange : List.range c =
        List.range (c - n % c) ++ (List.range (n % c)).map ((c - n % c) + ·) := by
      conv_lhs => rw [show c = (c - n % c) + n % c by omega]
      exact List.range_add _ _
    rw [hrange, List.map_append, List.map_map]
    congr 1
    · apply List.map_congr_left
      intro j hj
      rw [List.mem_range] at hj
      show q.arr.getD (n % c + j) none = some (f (n - c + j))
      rw [hslots (n % c + j) (by omega), slotSpec, if_neg (by omega), if_pos (by omega)]
      exact congrArg (fun t => some (f t)) (by omega)
    · apply List.map_congr_left
      intro u hu
      rw [List.mem_range] at hu
      show q.arr.getD u none = some (f (n - c + ((c - n % c) + u)))
      rw [hslots u (by omega), slotSpec, if_pos (by omega)]
      exact congrArg (fun t => some (f t)) (by omega)

theorem drainQueue_pushRun [DecidableEq α] (c k : Nat) (hc : c = 2 ^ k) (hk : k ≤ 32)
    (f : Nat → α) (n : Nat) (hn : n < U32) :
    (pushRun (NewCircularBufferQueue c) f n).drainQueue =
      some ((List.range (min n c)).map fun t => some (f (n - min n c + t)),
        { pushRun (NewCircularBufferQueue c) f n with
            drainingPostCheck := 0, acquired := 0, written := 0 }) := by
  obtain ⟨hsz, hm, hdpc, hacq, hw, hlen, hslots⟩ := pushRun_state c k hc hk f n
  have hnm : n % U32 = n := Nat.mod_eq_of_lt hn
  simp only [circularBufferQueue.drainQueue]
  rw [if_pos (hacq.trans hw.symm)]
  have hharv := harvest_eval
    ({ pushRun (NewCircularBufferQueue c) f n with drainingPostCheck := 1 })
    c n f ⟨k, hk, hc⟩ hsz hm (hw.trans hnm) hslots
  rw [hharv]
  rfl

theorem CBpushN_qc0 [DecidableEq α] (q0 q1 : circularBufferQueue α) (f : Nat → α)
    (n : Nat) :
    CBpushN ⟨q0, q1, 0⟩ f n = ⟨pushRun q0 f n, q1, 0⟩ := by
  induction n with
  | zero => rfl
  | succ n ih =>
    show (CBpushN ⟨q0, q1, 0⟩ f n).Push (f n) = _
    rw [ih]
    rfl

theorem CBpushN_qc1 [DecidableEq α] (q0 q1 : circularBufferQueue α) (f : Nat → α)
    (n : Nat) :
    CBpushN ⟨q0, q1, 1⟩ f n = ⟨q0, pushRun q1 f n, 1⟩ := by
  induction n with
  | zero => rfl
  | succ n ih =>
    show (CBpushN ⟨q0, q1, 1⟩ f n).Push (f n) = _
    rw [ih]
    rfl

theorem Drain_qc0 (q0 q1 : circularBufferQueue α) :
    (⟨q0, q1, 0⟩ : CircularBuffer α).Drain =
      (q0.drainQueue).map (fun p => (p.1, ⟨p.2, q1, 1⟩)) := rfl

theorem Drain_qc1 (q0 q1 : circularBufferQueue α) :
    (⟨q0, q1, 1⟩ : CircularBuffer α).Drain =
      (q1.drainQueue).map (fun p => (p.1, ⟨q0, p.2, 0⟩)) := rfl

end Profiling

namespace Profiling

/-- **C1 (amended).** For every power-of-two capacity `c = 2^k` (a `uint32`,
so `k ≤ 31`) and every single-threaded sequence of `n < 2^32` pushes followed
by one drain: the drained sequence is the last `min n c` pushed values in
order (so it has length `min n c`; for `n ≤ c` it is the pushed sequence in
order, `n - min n c = 0`), and when the queue has wrapped (`c ≤ n`) its first
(oldest) element is the slot at index `written & mask`. The bound `n < 2^32`
is forced by the 32-bit `written` counter: at `n = 2^32` the counter wraps
and the drain returns fewer than `min n c` values. -/
theorem single_threaded_push_drain [DecidableEq α] (c k n : Nat) (f : Nat → α)
    (hc : c = 2 ^ k) (hk : k ≤ 31) (hn : n < U32) :
    ((CBpushN (mkCircularBuffer c) f n).Drain).map Prod.fst =
      some ((List.range (min n c)).map fun t => some (f (n - min n c + t))) ∧
    (∀ res cb2, (CBpushN (mkCircularBuffer c) f n).Drain = some (res, cb2) →
      res.length = min n c ∧
      (c ≤ n → res.getD 0 none =
        (CBpushN (mkCircularBuffer c) f n).qs0.arr.getD
          (Nat.land ((CBpushN (mkCircularBuffer c) f n).qs0.written)
            ((CBpushN (mkCircularBuffer c) f n).qs0.mask)) none)) := by
  have hk32 : k ≤ 32 := by omega
  have hcpos : 0 < c := by
    rw [hc]
    exact Nat.pos_pow_of_pos k (by norm_num)
  obtain ⟨hsz, hm, hdpc, hacq, hw, hlen, hslots⟩ := pushRun_state c k hc hk32 f n
  have hnm : n % U32 = n := Nat.mod_eq_of_lt hn
  have hC : CBpushN (mkCircularBuffer c) f n =
      ⟨pushRun (NewCircularBufferQueue c) f n, NewCircularBufferQueue c, 0⟩ :=
    CBpushN_qc0 _ _ f n
  have hdq := drainQueue_pushRun c k hc hk32 f n hn
  have hD : (CBpushN (mkCircularBuffer c) f n).Drain =
      some ((List.range (min n c)).map fun t => some (f (n - min n c + t)),
        ⟨{ pushRun (NewCircularBufferQueue c) f n with
             drainingPostCheck := 0, acquired := 0, written := 0 },
          NewCircularBufferQueue c, 1⟩) := by
    rw [hC, Drain_qc0, hdq]
    rfl
  constructor
  · rw [hD]
    rfl
  · intro res cb2 hres
    rw [hD] at hres
    have hres1 : res = (List.range (min n c)).map
        fun t => some (f (n - min n c + t)) := by
      have := congrArg (fun o => o.map Prod.fst) hres
      simpa using this.symm
    subst hres1
    constructor
    · simp
    · intro hcn
      have hmin : min n c = c := Nat.min_eq_right hcn
      have hr : n % c < c := Nat.mod_lt n hcpos
      have hsubm : n % c = (n - c) % c := by
        conv_lhs => rw [show n = (n - c) + c by omega]
        rw [Nat.add_mod_right]
      have hcr : c + n % c ≤ n := by
        have h3 := Nat.mod_le (n - c) c
        omega
      have hland : Nat.land (n % U32) (c - 1) = n % c := by
        rw [hc, land_mask_mod]
        exact mod_U32_mod_pow k n hk32
      rw [hC]
      show ((List.range (min n c)).map fun t => some (f (n - min n c + t))).getD 0 none =
        (pushRun (NewCircularBufferQueue c) f n).arr.getD
          (Nat.land (pushRun (NewCircularBufferQueue c) f n).written
            (pushRun (NewCircularBufferQueue c) f n).mask) none
      rw [hw, hm, hland, hslots (n % c) hr, hmin]
      obtain ⟨c', rfl⟩ : ∃ c', c = c' + 1 := ⟨c - 1, by omega⟩
      rw [List.range_succ_eq_map]
      simp only [List.map_cons, List.getD_cons_zero, slotSpec]
      rw [if_neg (by omega), if_pos hcn]
      exact congrArg (fun t => some (f t)) (by omega)

end Profiling

namespace Profiling

/-- **C1 (counterexample).** At capacity `1`, after `2^32` single-threaded
pushes the 32-bit `written` counter has wrapped to `0`, so the drain returns
the empty sequence — not a sequence of length `min (2^32) 1 = 1` as the
claim requires for every `n`. -/
theorem harvest_zero (q : circularBufferQueue α) (hw : q.written = 0)
    (hs : 0 < q.size) : q.harvest = [] := by
  simp [circularBufferQueue.harvest, circularBufferQueue.harvestReads, hw, hs]

theorem drainQueue_pushRun_wrapzero [DecidableEq α] (c k : Nat) (hc : c = 2 ^ k)
    (hk : k ≤ 32) (f : Nat → α) (n : Nat) (hn : n % U32 = 0) :
    (pushRun (NewCircularBufferQueue c) f n).drainQueue =
      some ([], { pushRun (NewCircularBufferQueue c) f n with
        drainingPostCheck := 0, acquired := 0, written := 0 }) := by
  obtain ⟨hsz, hm, hdpc, hacq, hw, hlen, hslots⟩ := pushRun_state c k hc hk f n
  have hcpos : 0 < c := by
    rw [hc]
    exact Nat.pos_pow_of_pos k (by norm_num)
  have hw0 : (pushRun (NewCircularBufferQueue c) f n).written = 0 := by rw [hw, hn]
  have hharv : ({ pushRun (NewCircularBufferQueue c) f n with
      drainingPostCheck := 1 } : circularBufferQueue α).harvest = [] := by
    refine harvest_zero _ hw0 ?_
    show (0 : Nat) < (pushRun (NewCircularBufferQueue c) f n).size
    rw [hsz]
    exact hcpos
  simp only [circularBufferQueue.drainQueue]
  rw [if_pos (hacq.trans hw.symm), hharv]
  rfl

theorem push_drain_length_fails_at_wraparound :
    ((CBpushN (mkCircularBuffer 1) (fun i => i) U32).Drain).map Prod.fst =
      some ([] : List (Option Nat)) ∧
    min U32 1 = 1 := by
  constructor
  · have h := drainQueue_pushRun_wrapzero (α := Nat) 1 0 rfl (by norm_num)
      (fun i => i) U32 (Nat.mod_self U32)
    have hC : CBpushN (mkCircularBuffer 1) (fun i => i) U32 =
        ⟨pushRun (NewCircularBufferQueue 1) (fun i => i) U32,
          NewCircularBufferQueue 1, 0⟩ :=
      CBpushN_qc0 _ _ _ _
    rw [hC, Drain_qc0, h]
    rfl
  · rfl

/-- Witness for the amended C1 at capacity `4`, six pushes of `0,…,5`:
the drain returns the last four values `[2,3,4,5]`, of length `min 6 4 = 4`,
and its first (oldest) element is the slot at index `written & mask`. -/
theorem single_threaded_push_drain_witness :
    ((CBpushN (mkCircularBuffer 4) (fun i => (i : Nat)) 6).Drain).map Prod.fst =
      some [some 2, some 3, some 4, some 5] ∧
    ([some 2, some 3, some 4, some 5] : List (Option Nat)).length = min 6 4 ∧
    (4 ≤ 6 → ([some 2, some 3, some 4, some 5] : List (Option Nat)).getD 0 none =
      (CBpushN (mkCircularBuffer 4) (fun i => (i : Nat)) 6).qs0.arr.getD
        (Nat.land ((CBpushN (mkCircularBuffer 4) (fun i => (i : Nat)) 6).qs0.written)
          ((CBpushN (mkCircularBuffer 4) (fun i => (i : Nat)) 6).qs0.mask)) none) := by
  have h := single_threaded_push_drain (α := Nat) 4 2 6 (fun i => i) rfl
    (by norm_num) (by norm_num [U32])
  have hD : (CBpushN (mkCircularBuffer 4) (fun i => (i : Nat)) 6).Drain =
      some ([some 2, some 3, some 4, some 5],
        ⟨⟨[some 4, some 5, some 2, some 3], 4, 3, 0, 0, 0⟩,
          NewCircularBufferQueue 4, 1⟩) := by decide
  exact ⟨h.1.trans (by decide), (h.2 _ _ hD).1, (h.2 _ _ hD).2⟩

end Profiling

namespace Profiling

/-- **C6 (counterexample).** Push `7` into a fresh capacity-2 buffer and
drain: the counters of the drained queue are reset, but slot 0 still holds
`some 7` — the slot contents are NOT back to their initial empty value
(`Drain` resets only `acquired` and `written`, never the array). -/
theorem drain_leaves_slot_contents :
    ((mkCircularBuffer 2 : CircularBuffer Nat).Push 7).Drain =
      some ([some 7],
        ⟨⟨[some 7, none], 2, 1, 0, 0, 0⟩, NewCircularBufferQueue 2, 1⟩) ∧
    (⟨[some 7, none], 2, 1, 0, 0, 0⟩ : circularBufferQueue Nat).arr ≠
      (NewCircularBufferQueue 2 : circularBufferQueue Nat).arr := by
  exact ⟨by decide, by decide⟩

/-- **C6 (amended).** At the end of every drain the drained queue's counters
are reset (`acquired = written = 0`, barrier cleared) but its slot contents
are left as-is, not reset to their initial empty value; nevertheless a
subsequent single-threaded push-drain cycle returns exactly what the same
cycle returns on a freshly constructed buffer. -/
theorem drain_resets_counters_not_slots [DecidableEq α] :
    (∀ (q : circularBufferQueue α) (res : List (Option α))
        (q2 : circularBufferQueue α), q.drainQueue = some (res, q2) →
      q2.acquired = 0 ∧ q2.written = 0 ∧ q2.drainingPostCheck = 0 ∧
        q2.arr = q.arr) ∧
    (∀ (c k n0 n : Nat) (f g : Nat → α), c = 2 ^ k → k ≤ 31 →
      n0 < U32 → n < U32 →
      ∀ (res1 : List (Option α)) (cb1 : CircularBuffer α),
        (CBpushN (mkCircularBuffer c) f n0).Drain = some (res1, cb1) →
        ((CBpushN cb1 g n).Drain).map Prod.fst =
          ((CBpushN (mkCircularBuffer c) g n).Drain).map Prod.fst) := by
  constructor
  · intro q res q2 h
    simp only [circularBufferQueue.drainQueue] at h
    by_cases hq : q.acquired = q.written
    · rw [if_pos hq] at h
      have h' := Option.some.inj h
      have hq2 : ({ q with drainingPostCheck := 1 } :
          circularBufferQueue α).resetQueue = q2 := congrArg Prod.snd h'
      subst hq2
      exact ⟨rfl, rfl, rfl, rfl⟩
    · rw [if_neg hq] at h
      exact absurd h (by simp)
  · intro c k n0 n f g hc hk hn0 hn res1 cb1 h1
    have hk32 : k ≤ 32 := by omega
    have hD0 : (CBpushN (mkCircularBuffer c) f n0).Drain =
        some ((List.range (min n0 c)).map fun t => some (f (n0 - min n0 c + t)),
          ⟨{ pushRun (NewCircularBufferQueue c) f n0 with
               drainingPostCheck := 0, acquired := 0, written := 0 },
            NewCircularBufferQueue c, 1⟩) := by
      rw [show mkCircularBuffer c = (⟨NewCircularBufferQueue c,
          NewCircularBufferQueue c, 0⟩ : CircularBuffer α) from rfl,
        CBpushN_qc0, Drain_qc0, drainQueue_pushRun c k hc hk32 f n0 hn0]
      rfl
    have hcb1 : cb1 = ⟨{ pushRun (NewCircularBufferQueue c) f n0 with
        drainingPostCheck := 0, acquired := 0, written := 0 },
      NewCircularBufferQueue c, 1⟩ := by
      have h' := Option.some.inj (hD0.symm.trans h1)
      exact (congrArg Prod.snd h').symm
    subst hcb1
    rw [show mkCircularBuffer c = (⟨NewCircularBufferQueue c,
        NewCircularBufferQueue c, 0⟩ : CircularBuffer α) from rfl,
      CBpushN_qc1, Drain_qc1, drainQueue_pushRun c k hc hk32 g n hn,
      CBpushN_qc0, Drain_qc0, drainQueue_pushRun c k hc hk32 g n hn]
    rfl

/-- Witness for the amended C6: a drain of a fresh capacity-2 queue resets
its counters and keeps its array; after pushing `7` into a fresh capacity-2
buffer and draining, a second cycle of two pushes and a drain returns the
same sequence as on a fresh buffer. -/
theorem drain_resets_counters_not_slots_witness :
    ((0 : Nat) = 0 ∧ (0 : Nat) = 0 ∧ (0 : Nat) = 0 ∧
      (NewCircularBufferQueue 2 : circularBufferQueue Nat).arr =
        (NewCircularBufferQueue 2 : circularBufferQueue Nat).arr) ∧
    ((CBpushN (⟨⟨[some 7, none], 2, 1, 0, 0, 0⟩, NewCircularBufferQueue 2, 1⟩ :
        CircularBuffer Nat) (fun i => i) 2).Drain).map Prod.fst =
      ((CBpushN (mkCircularBuffer 2) (fun i => (i : Nat)) 2).Drain).map Prod.fst := by
  constructor
  · exact (drain_resets_counters_not_slots (α := Nat)).1 (NewCircularBufferQueue 2)
      [] (NewCircularBufferQueue 2) (by decide)
  · exact (drain_resets_counters_not_slots (α := Nat)).2 2 1 1 2 (fun _ => 7)
      (fun i => i) rfl (by norm_num) (by norm_num [U32]) (by norm_num [U32])
      [some 7] _ (by decide)

/-- **C7.** A push never fails observably (it is a total function) and a
null payload is permitted: for any payload `x` — the witness instantiates
an actual null payload, `none : Option Nat` — pushing `x` into a fresh
buffer stores it in slot 0, and the subsequent drain returns it as the
single element of the sequence. -/
theorem push_null_payload_drained [DecidableEq α] (c k : Nat) (x : α)
    (hc : c = 2 ^ k) (hk : k ≤ 31) :
    ((mkCircularBuffer c : CircularBuffer α).Push x).qs0.arr.getD 0 none = some x ∧
    (((mkCircularBuffer c : CircularBuffer α).Push x).Drain).map Prod.fst =
      some [some x] := by
  have hk32 : k ≤ 32 := by omega
  have hcpos : 0 < c := by
    rw [hc]
    exact Nat.pos_pow_of_pos k (by norm_num)
  have h1lt : (1 : Nat) < U32 := by norm_num [U32]
  obtain ⟨hsz, hm, hdpc, hacq, hw, hlen, hslots⟩ :=
    pushRun_state c k hc hk32 (fun _ => x) 1
  constructor
  · show (pushRun (NewCircularBufferQueue c) (fun _ => x) 1).arr.getD 0 none = some x
    rw [hslots 0 hcpos]
    rcases Nat.lt_or_ge c 2 with hc2 | hc2
    · have hc1 : c = 1 := by omega
      subst hc1
      rfl
    · have h1c : 1 % c = 1 := Nat.mod_eq_of_lt (by omega)
      simp only [slotSpec, h1c]
      rw [if_pos (by norm_num)]
  · have hC : (mkCircularBuffer c : CircularBuffer α).Push x =
        ⟨pushRun (NewCircularBufferQueue c) (fun _ => x) 1,
          NewCircularBufferQueue c, 0⟩ :=
      CBpushN_qc0 (NewCircularBufferQueue c) (NewCircularBufferQueue c)
        (fun _ => x) 1
    rw [hC, Drain_qc0, drainQueue_pushRun c k hc hk32 (fun _ => x) 1 h1lt]
    have hmin : min 1 c = 1 := Nat.min_eq_left hcpos
    simp [hmin]

theorem push_null_payload_drained_witness :
    ((mkCircularBuffer 2 : CircularBuffer (Option Nat)).Push none).qs0.arr.getD 0
      none = some none ∧
    (((mkCircularBuffer 2 : CircularBuffer (Option Nat)).Push none).Drain).map
      Prod.fst = some [some none] :=
  push_null_payload_drained 2 1 none rfl (by norm_num)

end Profiling

namespace Profiling

theorem pushSeq_size [DecidableEq α] (q : circularBufferQueue α) (x : α) :
    (q.pushSeq x).size = q.size ∧ (q.pushSeq x).mask = q.mask := by
  simp only [circularBufferQueue.pushSeq, circularBufferQueue.pushOnQueue]
  split_ifs <;> exact ⟨rfl, rfl⟩

theorem push_preserves_sizes [DecidableEq α] (cb : CircularBuffer α) (x : α)
    (c : Nat) (h : cb.qs0.size = c ∧ cb.qs0.mask = c - 1 ∧
      cb.qs1.size = c ∧ cb.qs1.mask = c - 1) :
    (cb.Push x).qs0.size = c ∧ (cb.Push x).qs0.mask = c - 1 ∧
    (cb.Push x).qs1.size = c ∧ (cb.Push x).qs1.mask = c - 1 := by
  obtain ⟨h1, h2, h3, h4⟩ := h
  by_cases hqc : cb.qc = 0 <;>
    simp [CircularBuffer.Push, hqc, (pushSeq_size _ x).1, (pushSeq_size _ x).2,
      h1, h2, h3, h4]

theorem harvest_length_le (q : circularBufferQueue α) (hm : q.mask = q.size - 1)
    (hs : 0 < q.size) : q.harvest.length ≤ q.size := by
  simp only [circularBufferQueue.harvest, circularBufferQueue.harvestReads]
  split_ifs with h
  · simp only [List.length_map, List.length_range]
    omega
  · have hcur : Nat.land q.written q.mask ≤ q.mask := Nat.and_le_right
    simp only [List.length_map, List.length_append, List.length_range]
    omega

theorem drainQueue_fields (q : circularBufferQueue α) (res : List (Option α))
    (q2 : circularBufferQueue α) (h : q.drainQueue = some (res, q2)) :
    q2.size = q.size ∧ q2.mask = q.mask ∧
    res = ({ q with drainingPostCheck := 1 } : circularBufferQueue α).harvest := by
  simp only [circularBufferQueue.drainQueue] at h
  by_cases hq : q.acquired = q.written
  · rw [if_pos hq] at h
    have h' := Option.some.inj h
    have hq2 : ({ q with drainingPostCheck := 1 } :
        circularBufferQueue α).resetQueue = q2 := congrArg Prod.snd h'
    subst hq2
    exact ⟨rfl, rfl, (congrArg Prod.fst h').symm⟩
  · rw [if_neg hq] at h
    exact absurd h (by simp)

theorem Drain_length_bound (cb : CircularBuffer α) (res : List (Option α))
    (cb2 : CircularBuffer α) (c : Nat) (hD : cb.Drain = some (res, cb2))
    (hcpos : 0 < c)
    (h1 : cb.qs0.size = c) (h2 : cb.qs0.mask = c - 1)
    (h3 : cb.qs1.size = c) (h4 : cb.qs1.mask = c - 1) :
    res.length ≤ c ∧ cb2.qs0.size = c ∧ cb2.qs0.mask = c - 1 ∧
      cb2.qs1.size = c ∧ cb2.qs1.mask = c - 1 := by
  by_cases hqc : cb.qc = 0
  · simp only [CircularBuffer.Drain, if_pos hqc] at hD
    rcases hdq : cb.qs0.drainQueue with _ | pr
    · rw [hdq] at hD
      exact absurd hD (by simp)
    · obtain ⟨res2, q2⟩ := pr
      rw [hdq] at hD
      simp only [Option.map_some'] at hD
      have h' := Option.some.inj hD
      have hres : res2 = res := congrArg Prod.fst h'
      have hcb2 : (⟨q2, cb.qs1, 1⟩ : CircularBuffer α) = cb2 := congrArg Prod.snd h'
      obtain ⟨hq2s, hq2m, hres2⟩ := drainQueue_fields cb.qs0 res2 q2 hdq
      subst hres
      subst hcb2
      refine ⟨?_, by rw [hq2s, h1], by rw [hq2m, h2], h3, h4⟩
      rw [hres2]
      have hle := harvest_length_le
        ({ cb.qs0 with drainingPostCheck := 1 } : circularBufferQueue α)
        (by show cb.qs0.mask = cb.qs0.size - 1; rw [h1, h2])
        (by show 0 < cb.qs0.size; rw [h1]; exact hcpos)
      calc ({ cb.qs0 with drainingPostCheck := 1 } :
          circularBufferQueue α).harvest.length
          ≤ ({ cb.qs0 with drainingPostCheck := 1 } :
            circularBufferQueue α).size := hle
      _ = c := by show cb.qs0.size = c; exact h1
  · simp only [CircularBuffer.Drain, if_neg hqc] at hD
    rcases hdq : cb.qs1.drainQueue with _ | pr
    · rw [hdq] at hD
      exact absurd hD (by simp)
    · obtain ⟨res2, q2⟩ := pr
      rw [hdq] at hD
      simp only [Option.map_some'] at hD
      have h' := Option.some.inj hD
      have hres : res2 = res := congrArg Prod.fst h'
      have hcb2 : (⟨cb.qs0, q2, if cb.qc = 1 then 0 else cb.qc⟩ :
          CircularBuffer α) = cb2 := congrArg Prod.snd h'
      obtain ⟨hq2s, hq2m, hres2⟩ := drainQueue_fields cb.qs1 res2 q2 hdq
      subst hres
      subst hcb2
      refine ⟨?_, h1, h2, by rw [hq2s, h3], by rw [hq2m, h4]⟩
      rw [hres2]
      have hle := harvest_length_le
        ({ cb.qs1 with drainingPostCheck := 1 } : circularBufferQueue α)
        (by show cb.qs1.mask = cb.qs1.size - 1; rw [h3, h4])
        (by show 0 < cb.qs1.size; rw [h3]; exact hcpos)
      calc ({ cb.qs1 with drainingPostCheck := 1 } :
          circularBufferQueue α).harvest.length
          ≤ ({ cb.qs1 with drainingPostCheck := 1 } :
            circularBufferQueue α).size := hle
      _ = c := by show cb.qs1.size = c; exact h3

theorem applyOps_sizes [DecidableEq α] (c : Nat) (hcpos : 0 < c)
    (ops : List (Op α)) :
    ∀ (cb : CircularBuffer α), cb.qs0.size = c → cb.qs0.mask = c - 1 →
      cb.qs1.size = c → cb.qs1.mask = c - 1 →
      (applyOps cb ops).qs0.size = c ∧ (applyOps cb ops).qs0.mask = c - 1 ∧
      (applyOps cb ops).qs1.size = c ∧ (applyOps cb ops).qs1.mask = c - 1 := by
  induction ops with
  | nil =>
    intro cb h1 h2 h3 h4
    exact ⟨h1, h2, h3, h4⟩
  | cons op t ih =>
    intro cb h1 h2 h3 h4
    cases op with
    | push x =>
      obtain ⟨g1, g2, g3, g4⟩ := push_preserves_sizes cb x c ⟨h1, h2, h3, h4⟩
      exact ih (cb.Push x) g1 g2 g3 g4
    | drain =>
      have hred : applyOps cb (Op.drain :: t) =
          match cb.Drain with
          | some p => applyOps p.2 t
          | none => cb := rfl
      rcases hD : cb.Drain with _ | p
      · rw [hred, hD]
        exact ⟨h1, h2, h3, h4⟩
      · obtain ⟨res2, cb2⟩ := p
        rw [hred, hD]
        obtain ⟨_, g1, g2, g3, g4⟩ :=
          Drain_length_bound cb res2 cb2 c hD hcpos h1 h2 h3 h4
        exact ih cb2 g1 g2 g3 g4

/-- **C8.** For every buffer state reachable from a constructed power-of-two
capacity buffer by any single-threaded sequence of pushes and drains, a
drain that returns yields a sequence whose length is at least `0` and at
most the capacity. -/
theorem drain_length_le_capacity [DecidableEq α] (c k : Nat) (ops : List (Op α))
    (hc : c = 2 ^ k) (hk : k ≤ 31) (res : List (Option α))
    (cb2 : CircularBuffer α)
    (h : (applyOps (mkCircularBuffer c) ops).Drain = some (res, cb2)) :
    0 ≤ res.length ∧ res.length ≤ c := by
  have hcpos : 0 < c := by
    rw [hc]
    exact Nat.pos_pow_of_pos k (by norm_num)
  have hcle : c ≤ U32 := by
    rw [hc]
    calc (2 : Nat) ^ k ≤ 2 ^ 32 := Nat.pow_le_pow_right (by norm_num) (by omega)
    _ = U32 := by norm_num [U32]
  have hmask : (NewCircularBufferQueue c : circularBufferQueue α).mask = c - 1 :=
    mask_sub_one c hcpos hcle
  obtain ⟨g1, g2, g3, g4⟩ := applyOps_sizes c hcpos ops (mkCircularBuffer c)
    rfl hmask rfl hmask
  exact ⟨Nat.zero_le _,
    (Drain_length_bound _ res cb2 c h hcpos g1 g2 g3 g4).1⟩

end Profiling

namespace Profiling

theorem pushSeq_eq [DecidableEq α] (q : circularBufferQueue α) (x : α)
    (hdpc : q.drainingPostCheck = 0) :
    q.pushSeq x = { q with
      acquired := (q.acquired + 1) % U32,
      written := (q.written + 1) % U32,
      arr := q.arr.set (Nat.land q.acquired q.mask) (some x) } := by
  simp [circularBufferQueue.pushSeq, circularBufferQueue.pushOnQueue, casSlot, hdpc]

end Profiling

theorem ActiveSim_push [DecidableEq α] (c k : Nat) (hc : c = 2 ^ k) (hk : k ≤ 31)
    (qa qi : Profiling.circularBufferQueue α) (old : ProfilingOld.CircularBuffer α)
    (ho2 : old.mask = c - 1) (ho3 : old.arr.length = c)
    (h : ActiveSim c qa qi old) (x : α) :
    ActiveSim c (qa.pushSeq x) qi (old.Push x) := by
  obtain ⟨⟨ha1, ha2, ha3, ha4⟩, hqi, hi1, hi2, haw, g, hg1, hg2, hg3⟩ := h
  have hcpos : 0 < c := by
    rw [hc]
    exact Nat.pos_pow_of_pos k (by norm_num)
  have hmodc : g % U32 % c = g % c := by
    rw [hc]
    exact Profiling.mod_U32_mod_pow k g (by omega)
  have hidx : Nat.land qa.acquired qa.mask = g % c := by
    rw [haw, hg1, ha2, hc, Profiling.land_mask_mod]
    rw [← hc]
    exact hmodc
  have hoidx : Nat.land old.written old.mask = g % c := by
    rw [hg2, ho2, hc, Profiling.land_mask_mod]
    rw [← hc]
    exact hmodc
  have hstep := Profiling.pushSeq_eq qa x ha4
  have holdp : old.Push x = { old with
      written := (old.written + 1) % U32,
      arr := old.arr.set (g % c) (some x) } := by
    rw [ProfilingOld.CircularBuffer.Push, hoidx]
  refine ⟨?_, hqi, hi1, hi2, ?_, g + 1, ?_, ?_, ?_⟩
  · rw [hstep]
    exact ⟨ha1, ha2, by simpa using ha3, ha4⟩
  · rw [hstep]
    show (qa.acquired + 1) % U32 = (qa.written + 1) % U32
    rw [haw]
  · rw [hstep]
    show (qa.written + 1) % U32 = (g + 1) % U32
    rw [hg1]
    exact Profiling.succ_mod_U32 g
  · rw [holdp]
    show (old.written + 1) % U32 = (g + 1) % U32
    rw [hg2]
    exact Profiling.succ_mod_U32 g
  · intro j hj1 hj2
    rw [hstep, holdp, hidx]
    show (qa.arr.set (g % c) (some x)).getD j none =
      (old.arr.set (g % c) (some x)).getD j none
    rcases eq_or_ne j (g % c) with hje | hje
    · subst hje
      rw [getD_set_self _ _ _ _ (by rw [ha3]; exact Nat.mod_lt g hcpos),
        getD_set_self _ _ _ _ (by rw [ho3]; exact Nat.mod_lt g hcpos)]
    · rw [getD_set_ne _ _ _ _ _ (Ne.symm hje), getD_set_ne _ _ _ _ _ (Ne.symm hje)]
      refine hg3 j ?_ hj2
      rcases Nat.lt_or_ge g c with hgc | hgc
      · have hmod : g % c = g := Nat.mod_eq_of_lt hgc
        omega
      · omega

theorem ActiveSim_harvest (c k : Nat) (hc : c = 2 ^ k) (hk : k ≤ 31)
    (qa : Profiling.circularBufferQueue α) (old : ProfilingOld.CircularBuffer α)
    (ho1 : old.size = c) (ho2 : old.mask = c - 1)
    (ha1 : qa.size = c) (ha2 : qa.mask = c - 1)
    (g : Nat) (hg1 : qa.written = g % U32) (hg2 : old.written = g % U32)
    (hg3 : ∀ j, j < g → j < c → qa.arr.getD j none = old.arr.getD j none) :
    ({ qa with drainingPostCheck := 1 } :
      Profiling.circularBufferQueue α).harvest = old.harvest := by
  have hcpos : 0 < c := by
    rw [hc]
    exact Nat.pos_pow_of_pos k (by norm_num)
  have hwg : g % U32 ≤ g := Nat.mod_le g U32
  simp only [Profiling.circularBufferQueue.harvest,
    Profiling.circularBufferQueue.harvestReads, ProfilingOld.CircularBuffer.harvest]
  rw [hg1, hg2, ha1, ho1, ha2, ho2]
  rcases Nat.lt_or_ge (g % U32) c with hlt | hge
  · rw [if_pos hlt, if_pos hlt]
    refine List.map_congr_left fun j hj => ?_
    rw [List.mem_range] at hj
    exact hg3 j (by omega) (by omega)
  · rw [if_neg (Nat.not_lt.mpr hge), if_neg (Nat.not_lt.mpr hge)]
    have hgc : c ≤ g := le_trans hge hwg
    have hcur : Nat.land (g % U32) (c - 1) = g % c := by
      rw [hc, Profiling.land_mask_mod]
      exact Profiling.mod_U32_mod_pow k g (by omega)
    rw [hcur]
    have hrc : g % c < c := Nat.mod_lt g hcpos
    rw [List.map_append, List.map_map]
    congr 1
    · refine List.map_congr_left fun j hj => ?_
      rw [List.mem_range] at hj
      show qa.arr.getD (g % c + j) none = old.arr.getD (g % c + j) none
      exact hg3 (g % c + j) (by omega) (by omega)
    · refine List.map_congr_left fun u hu => ?_
      rw [List.mem_range] at hu
      exact hg3 u (by omega) (by omega)

theorem SimInv_push [DecidableEq α] (c k : Nat) (hc : c = 2 ^ k) (hk : k ≤ 31)
    (cb : Profiling.CircularBuffer α) (old : ProfilingOld.CircularBuffer α)
    (hinv : SimInv c cb old) (x : α) :
    SimInv c (cb.Push x) (old.Push x) := by
  obtain ⟨ho1, ho2, ho3, hcase⟩ := hinv
  have hosz : (old.Push x).size = old.size := rfl
  have homask : (old.Push x).mask = old.mask := rfl
  have holen : (old.Push x).arr.length = old.arr.length := by
    show (old.arr.set (Nat.land old.written old.mask) (some x)).length = _
    exact List.length_set old.arr _ _
  refine ⟨ho1, ho2, by rw [holen]; exact ho3, ?_⟩
  rcases hcase with ⟨hq0, hact⟩ | ⟨hq1, hact⟩
  · left
    have hPush : cb.Push x = { cb with qs0 := cb.qs0.pushSeq x } := by
      simp [Profiling.CircularBuffer.Push, hq0]
    rw [hPush]
    exact ⟨hq0, ActiveSim_push c k hc hk cb.qs0 cb.qs1 old ho2 ho3 hact x⟩
  · right
    have hPush : cb.Push x = { cb with qs1 := cb.qs1.pushSeq x } := by
      simp [Profiling.CircularBuffer.Push, hq1]
    rw [hPush]
    exact ⟨hq1, ActiveSim_push c k hc hk cb.qs1 cb.qs0 old ho2 ho3 hact x⟩

theorem SimInv_drain [DecidableEq α] (c k : Nat) (hc : c = 2 ^ k) (hk : k ≤ 31)
    (cb : Profiling.CircularBuffer α) (old : ProfilingOld.CircularBuffer α)
    (hinv : SimInv c cb old) :
    ∃ cb2, cb.Drain = some ((old.Drain).1, cb2) ∧ SimInv c cb2 (old.Drain).2 := by
  obtain ⟨ho1, ho2, ho3, hcase⟩ := hinv
  rcases hcase with ⟨hq0, hact⟩ | ⟨hq1, hact⟩
  · obtain ⟨⟨ha1, ha2, ha3, ha4⟩, ⟨hb1, hb2, hb3, hb4⟩, hi1, hi2, haw, g, hg1, hg2, hg3⟩ := hact
    have hharv := ActiveSim_harvest c k hc hk cb.qs0 old ho1 ho2 ha1 ha2 g hg1 hg2 hg3
    refine ⟨⟨{ cb.qs0 with drainingPostCheck := 0, acquired := 0, written := 0 },
      cb.qs1, 1⟩, ?_, ?_⟩
    · have hD : cb.Drain = some (({ cb.qs0 with drainingPostCheck := 1 } :
          Profiling.circularBufferQueue α).harvest,
          ⟨{ cb.qs0 with drainingPostCheck := 0, acquired := 0, written := 0 },
            cb.qs1, 1⟩) := by
        simp only [Profiling.CircularBuffer.Drain]
        rw [if_pos hq0]
        simp only [Profiling.circularBufferQueue.drainQueue]
        rw [if_pos haw]
        rfl
      rw [hD, hharv]
      rfl
    · refine ⟨ho1, ho2, ho3, Or.inr ⟨rfl, ⟨hb1, hb2, hb3, hb4⟩,
        ⟨ha1, ha2, ha3, rfl⟩, rfl, rfl, ?_, 0, ?_, rfl, ?_⟩⟩
      · rw [hi1, hi2]
      · rw [hi2]
        exact (Nat.zero_mod U32).symm
      · intro j hj
        exact absurd hj (Nat.not_lt_zero j)
  · obtain ⟨⟨ha1, ha2, ha3, ha4⟩, ⟨hb1, hb2, hb3, hb4⟩, hi1, hi2, haw, g, hg1, hg2, hg3⟩ := hact
    have hharv := ActiveSim_harvest c k hc hk cb.qs1 old ho1 ho2 ha1 ha2 g hg1 hg2 hg3
    refine ⟨⟨cb.qs0,
      { cb.qs1 with
        drainingPostCheck := 0
        acquired := 0
        written := 0 }, 0⟩, ?_, ?_⟩
    · have hD : cb.Drain = some (({ cb.qs1 with drainingPostCheck := 1 } :
          Profiling.circularBufferQueue α).harvest,
          ⟨cb.qs0, { cb.qs1 with
            drainingPostCheck := 0
            acquired := 0
            written := 0 }, 0⟩) := by
        simp only [Profiling.CircularBuffer.Drain]
        rw [if_neg (by rw [hq1]; exact one_ne_zero), hq1]
        simp only [Profiling.circularBufferQueue.drainQueue]
        rw [if_pos haw]
        rfl
      rw [hD, hharv]
      rfl
    · refine ⟨ho1, ho2, ho3, Or.inl ⟨rfl, ⟨hb1, hb2, hb3, hb4⟩,
        ⟨ha1, ha2, ha3, rfl⟩, rfl, rfl, ?_, 0, ?_, rfl, ?_⟩⟩
      · rw [hi1, hi2]
      · rw [hi2]
        exact (Nat.zero_mod U32).symm
      · intro j hj
        exact absurd hj (Nat.not_lt_zero j)

theorem SimInv_init (c k : Nat) (hc : c = 2 ^ k) (hk : k ≤ 31) :
    SimInv (α := α) c (Profiling.mkCircularBuffer c)
      (ProfilingOld.mkCircularBuffer c) := by
  have hcpos : 0 < c := by
    rw [hc]
    exact Nat.pos_pow_of_pos k (by norm_num)
  have hcle : c ≤ U32 := by
    rw [hc]
    calc (2 : Nat) ^ k ≤ 2 ^ 32 := Nat.pow_le_pow_right (by norm_num) (by omega)
    _ = U32 := by norm_num [U32]
  have hmask := Profiling.mask_sub_one c hcpos hcle
  have hshape : QueueShape (α := α) c (Profiling.NewCircularBufferQueue c) :=
    ⟨rfl, hmask, by simp [Profiling.NewCircularBufferQueue], rfl⟩
  refine ⟨rfl, hmask, by simp [ProfilingOld.mkCircularBuffer],
    Or.inl ⟨rfl, hshape, hshape, rfl, rfl, rfl, 0, (Nat.zero_mod U32).symm,
      (Nat.zero_mod U32).symm, ?_⟩⟩
  intro j hj
  exact absurd hj (Nat.not_lt_zero j)

theorem runNew_eq_runOld [DecidableEq α] (c k : Nat) (hc : c = 2 ^ k)
    (hk : k ≤ 31) (ops : List (Op α)) :
    ∀ (cb : Profiling.CircularBuffer α) (old : ProfilingOld.CircularBuffer α),
      SimInv c cb old → Profiling.runNew cb ops = ProfilingOld.runOld old ops := by
  induction ops with
  | nil =>
    intro cb old hinv
    rfl
  | cons op t ih =>
    intro cb old hinv
    cases op with
    | push x => exact ih _ _ (SimInv_push c k hc hk cb old hinv x)
    | drain =>
      obtain ⟨cb2, hD, hinv2⟩ := SimInv_drain c k hc hk cb old hinv
      have hLHS : Profiling.runNew cb (Op.drain :: t) =
          (old.Drain).1 :: Profiling.runNew cb2 t := by
        show (match cb.Drain with
          | some p => p.1 :: Profiling.runNew p.2 t
          | none => []) = _
        rw [hD]
      rw [hLHS, ih cb2 (old.Drain).2 hinv2]
      rfl

theorem drain_length_le_capacity_witness :
    0 ≤ ([] : List (Option Nat)).length ∧ ([] : List (Option Nat)).length ≤ 1 :=
  Profiling.drain_length_le_capacity 1 0 [] rfl (by norm_num) []
    ⟨Profiling.NewCircularBufferQueue 1, Profiling.NewCircularBufferQueue 1, 1⟩
    (by decide)

/-- **C10.** For every positive power-of-two `uint32` capacity `c = 2^k`
(`k ≤ 31`) and every single-threaded workload of pushes interleaved with
drains, the earlier single-queue revision (`profiling/buffer.go`) and the
later double-buffered revision return identical sequences from every drain;
the two constructors also accept exactly this capacity. (Payloads range over
an arbitrary type `α`, modelling the non-null values; a null push would make
the old revision's `atomic.Value.Store` panic and is outside the claim.) -/
theorem old_new_drain_equivalence [DecidableEq α] (c k : Nat) (ops : List (Op α))
    (hc : c = 2 ^ k) (hk : k ≤ 31) :
    Profiling.runNew (Profiling.mkCircularBuffer c) ops =
      ProfilingOld.runOld (ProfilingOld.mkCircularBuffer c) ops ∧
    Profiling.NewCircularBuffer (α := α) c =
      some (Profiling.mkCircularBuffer c) ∧
    ProfilingOld.NewCircularBuffer (α := α) c =
      some (ProfilingOld.mkCircularBuffer c) := by
  have hcpos : 0 < c := by
    rw [hc]
    exact Nat.pos_pow_of_pos k (by norm_num)
  have hcle : c ≤ U32 := by
    rw [hc]
    calc (2 : Nat) ^ k ≤ 2 ^ 32 := Nat.pow_le_pow_right (by norm_num) (by omega)
    _ = U32 := by norm_num [U32]
  have hland : Nat.land c ((c + (U32 - 1)) % U32) = 0 := by
    rw [Profiling.mask_sub_one c hcpos hcle, hc, Profiling.land_mask_mod,
      Nat.mod_self]
  refine ⟨runNew_eq_runOld c k hc hk ops _ _ (SimInv_init c k hc hk), ?_, ?_⟩
  · simp only [Profiling.NewCircularBuffer]
    rw [if_neg (by simp [hland])]
  · simp only [ProfilingOld.NewCircularBuffer]
    rw [if_neg (by simp [hland])]

theorem old_new_drain_equivalence_witness :
    Profiling.runNew (Profiling.mkCircularBuffer 2)
        [Op.push (1 : Nat), Op.push 2, Op.push 3, Op.drain, Op.push 4,
          Op.drain, Op.drain] =
      ProfilingOld.runOld (ProfilingOld.mkCircularBuffer 2)
        [Op.push (1 : Nat), Op.push 2, Op.push 3, Op.drain, Op.push 4,
          Op.drain, Op.drain] ∧
    ProfilingOld.runOld (ProfilingOld.mkCircularBuffer 2)
        [Op.push (1 : Nat), Op.push 2, Op.push 3, Op.drain, Op.push 4,
          Op.drain, Op.drain] =
      [[some 2, some 3], [some 4], []] :=
  ⟨(old_new_drain_equivalence 2 1 _ rfl (by norm_num)).1, by decide⟩
